import Mathlib

/-!
Verification of the decision and risk-allocation engine of the polymarket
trading bot.  The definitions below are a shallow embedding of

  * `src/backend/strategies/compositeStrategy.js` (`analyzeMarket`), and
  * the `TradingEngine` class of `src/unnamed/part_009`
    (`checkTradingOpportunities`, `calculateKellyAmount`,
    `settlePaperTrades`, `start`, `stop`).

All JavaScript numbers are modelled as exact rationals (`ℚ`).  One deviation
is noted where it matters: JavaScript division by zero yields `NaN` while `ℚ`
division by zero yields `0`; in every theorem touching that corner the claimed
property fails in both semantics and the proofs only rely on the failure.
-/

namespace Polymarket

/-- Trade outcome, the `'YES'`/`'NO'` strings of the source. -/
inductive Outcome
  | YES
  | NO
deriving DecidableEq, Repr

/-- Trading decision, the `'BUY'`/`'HOLD'` strings of the source. -/
inductive Decision
  | BUY
  | HOLD
deriving DecidableEq, Repr

/-- Trade amount hint, the `'normal'`/`'reduced'`/`'increased'` strings. -/
inductive AmountHint
  | normal
  | reduced
  | increased
deriving DecidableEq, Repr

/-- Strategy weight triple (`{ technical, news, orderFlow }`). -/
structure Weights where
  technical : ℚ
  news : ℚ
  orderFlow : ℚ
deriving DecidableEq, Repr

/-- The value of a fulfilled signal-provider promise.  All three providers of
the repository (`analyzeTechnical`, `analyzeNewsSentiment`, `analyzeOrderFlow`)
always return a numeric `score` (and `0` together with an `error` message on
internal failure), so `score` is modelled as a total field; `hasError` records
the presence of a truthy `error` field.  `confidence` is only ever read from
the order-flow result. -/
structure SignalValue where
  score : ℚ
  confidence : ℚ
  hasError : Bool
deriving DecidableEq, Repr

/-- A settled provider promise: `none` models a rejected promise,
`some v` a fulfilled one. -/
abbrev SettledSignal := Option SignalValue

/-- One entry of the `breakdown` object returned by `analyzeMarket`. -/
structure BreakdownEntry where
  score : ℚ
  hasError : Bool
deriving DecidableEq, Repr

/-- The analysis record returned by `analyzeMarket`
(compositeStrategy.js lines 153-179 and the fallback at lines 184-197).
`hasError` models the presence of the top-level `error` field. -/
structure CompositeAnalysis where
  compositeScore : ℚ
  confidence : ℚ
  decision : Decision
  outcome : Option Outcome
  tradeAmount : AmountHint
  bdTechnical : BreakdownEntry
  bdNews : BreakdownEntry
  bdOrderFlow : BreakdownEntry
  weights : Weights
  originalWeights : Weights
  hasError : Bool
deriving DecidableEq, Repr

/-- compositeStrategy.js lines 17-21: a strategy succeeded when its promise
was fulfilled with a numeric score and no `error` field (all providers of the
repository always return a numeric score, see `SignalValue`). -/
def isStrategySuccessful (r : SettledSignal) : Bool :=
  match r with
  | some v => !v.hasError
  | none => false

/-- Score extraction, compositeStrategy.js lines 52-54: the score of a
fulfilled promise, `0` for a rejected one (even a fulfilled-with-error value
keeps its own score here). -/
def scoreOf (r : SettledSignal) : ℚ :=
  match r with
  | some v => v.score
  | none => 0

/-- Confidence extraction, compositeStrategy.js line 55. -/
def confOf (r : SettledSignal) : ℚ :=
  match r with
  | some v => v.confidence
  | none => 0

/-- Sum of the configured weights of the successful strategies,
compositeStrategy.js line 75. -/
def successfulWeightSum (w : Weights) (t n o : SettledSignal) : ℚ :=
  (if isStrategySuccessful t then w.technical else 0) +
  (if isStrategySuccessful n then w.news else 0) +
  (if isStrategySuccessful o then w.orderFlow else 0)

/-- Weight redistribution, compositeStrategy.js lines 70-84.  Each successful
strategy gets `w_i / successfulWeightSum`, each failed one `0`; when no
strategy succeeded the original weights are kept.  (When the successful
strategies all have configured weight `0` the JS division is `0/0 = NaN`;
in `ℚ` it is `0` — in both semantics the redistributed weights then fail to
sum to `1`.) -/
def adjustedWeightsOf (w : Weights) (t n o : SettledSignal) : Weights :=
  if isStrategySuccessful t ∨ isStrategySuccessful n ∨ isStrategySuccessful o then
    { technical := if isStrategySuccessful t then w.technical / successfulWeightSum w t n o else 0
      news := if isStrategySuccessful n then w.news / successfulWeightSum w t n o else 0
      orderFlow := if isStrategySuccessful o then w.orderFlow / successfulWeightSum w t n o else 0 }
  else
    w

/-- Composite score, compositeStrategy.js lines 87-90. -/
def compositeScoreOf (w : Weights) (t n o : SettledSignal) : ℚ :=
  scoreOf t * (adjustedWeightsOf w t n o).technical +
  scoreOf n * (adjustedWeightsOf w t n o).news +
  scoreOf o * (adjustedWeightsOf w t n o).orderFlow

/-- `Math.sign`. -/
def qsign (x : ℚ) : ℤ :=
  if 0 < x then 1 else if x < 0 then -1 else 0

/-- Agreement confidence, compositeStrategy.js lines 92-104: `0.9` when all
three raw scores share a strict sign, otherwise the fraction of the three
signals whose sign matches the sign of the composite score. -/
def agreementConfidence (taScore newsScore ofScore compositeScore : ℚ) : ℚ :=
  if (0 < taScore ∧ 0 < newsScore ∧ 0 < ofScore) ∨
     (taScore < 0 ∧ newsScore < 0 ∧ ofScore < 0) then
    9/10
  else
    (((if qsign taScore = qsign compositeScore then 1 else 0) +
      (if qsign newsScore = qsign compositeScore then 1 else 0) +
      (if qsign ofScore = qsign compositeScore then 1 else 0) : ℚ)) / 3

/-- Blended confidence, compositeStrategy.js line 107. -/
def confidenceOf (w : Weights) (t n o : SettledSignal) : ℚ :=
  agreementConfidence (scoreOf t) (scoreOf n) (scoreOf o) (compositeScoreOf w t n o) * (7/10) +
  confOf o * (3/10)

/-- Decision thresholds, compositeStrategy.js lines 109-141, checked
most-extreme-first. -/
def decisionTriple (compositeScore confidence : ℚ) :
    Decision × Option Outcome × AmountHint :=
  if 1/2 < compositeScore ∧ 13/20 < confidence then (.BUY, some .YES, .increased)
  else if 7/20 < compositeScore ∧ 1/2 < confidence then (.BUY, some .YES, .normal)
  else if compositeScore < -(1/2) ∧ 13/20 < confidence then (.BUY, some .NO, .increased)
  else if compositeScore < -(7/20) ∧ 1/2 < confidence then (.BUY, some .NO, .normal)
  else (.HOLD, none, .normal)

/-- Liquidity downgrade, compositeStrategy.js lines 143-151: when the order
flow promise was fulfilled with confidence `< 0.3`, an `increased` BUY is
downgraded to a `normal` BUY and a `normal` BUY to HOLD (outcome reset). -/
def liquidityAdjust (orderFlow : SettledSignal)
    (d : Decision × Option Outcome × AmountHint) :
    Decision × Option Outcome × AmountHint :=
  match orderFlow with
  | some v =>
    if v.confidence < 3/10 then
      if d.1 = .BUY ∧ d.2.2 = .increased then (.BUY, d.2.1, .normal)
      else if d.1 = .BUY ∧ d.2.2 = .normal then (.HOLD, none, .normal)
      else d
    else d
  | none => d

/-- Breakdown entry, compositeStrategy.js lines 159-176: the provider value
itself when fulfilled, `{score: 0, error: ...}` when rejected. -/
def breakdownOf (r : SettledSignal) : BreakdownEntry :=
  match r with
  | some v => { score := v.score, hasError := v.hasError }
  | none => { score := 0, hasError := true }

/-- The body of `analyzeMarket` (compositeStrategy.js lines 42-179), a pure
function of the three settled provider promises and the configured weights. -/
def analyzeMarket (t n o : SettledSignal) (w : Weights) : CompositeAnalysis :=
  { compositeScore := compositeScoreOf w t n o
    confidence := confidenceOf w t n o
    decision := (liquidityAdjust o (decisionTriple (compositeScoreOf w t n o) (confidenceOf w t n o))).1
    outcome := (liquidityAdjust o (decisionTriple (compositeScoreOf w t n o) (confidenceOf w t n o))).2.1
    tradeAmount := (liquidityAdjust o (decisionTriple (compositeScoreOf w t n o) (confidenceOf w t n o))).2.2
    bdTechnical := breakdownOf t
    bdNews := breakdownOf n
    bdOrderFlow := breakdownOf o
    weights := adjustedWeightsOf w t n o
    originalWeights := w
    hasError := false }

/-- The catch-branch fallback of `analyzeMarket`
(compositeStrategy.js lines 184-197). -/
def fallbackAnalysis (w : Weights) : CompositeAnalysis :=
  { compositeScore := 0
    confidence := 0
    decision := .HOLD
    outcome := none
    tradeAmount := .normal
    bdTechnical := { score := 0, hasError := true }
    bdNews := { score := 0, hasError := true }
    bdOrderFlow := { score := 0, hasError := true }
    weights := w
    originalWeights := w
    hasError := true }

/-- A settled provider result as the three providers of this repository can
actually produce it: whenever a fulfilled value carries an error, its score
is `0` (all three providers return `{score: 0, error}` in their catch
branches). -/
def ProviderClean (r : SettledSignal) : Prop :=
  ∀ v : SignalValue, r = some v → v.hasError = true → v.score = 0

/-! ### Lemmas about the decision pipeline -/

/-- The decision/outcome pairing produced by the threshold table. -/
lemma decisionTriple_pairing (cs c : ℚ) :
    ((decisionTriple cs c).1 = .BUY ↔ (decisionTriple cs c).2.1 ≠ none) ∧
    ((decisionTriple cs c).1 = .HOLD ↔ (decisionTriple cs c).2.1 = none) := by
  unfold decisionTriple
  split_ifs <;> simp

/-- The liquidity downgrade preserves the decision/outcome pairing. -/
lemma liquidityAdjust_pairing (o : SettledSignal)
    (d : Decision × Option Outcome × AmountHint)
    (h1 : d.1 = .BUY ↔ d.2.1 ≠ none) (h2 : d.1 = .HOLD ↔ d.2.1 = none) :
    ((liquidityAdjust o d).1 = .BUY ↔ (liquidityAdjust o d).2.1 ≠ none) ∧
    ((liquidityAdjust o d).1 = .HOLD ↔ (liquidityAdjust o d).2.1 = none) := by
  unfold liquidityAdjust
  match o with
  | none => exact ⟨h1, h2⟩
  | some v =>
    simp only
    split_ifs with hconf hbuy hnorm
    · obtain ⟨hd, _⟩ := hbuy
      have hout : d.2.1 ≠ none := h1.mp hd
      simp [hout]
    · simp
    · exact ⟨h1, h2⟩
    · exact ⟨h1, h2⟩

/-! ### C10 — decision/outcome invariant -/

/-- C10: every `CompositeAnalysis` returned by `analyzeMarket` (and the
total-failure fallback) has `decision = BUY` iff `outcome` is a concrete
outcome, and `decision = HOLD` iff `outcome` is `null`. -/
theorem c10_decision_outcome_invariant (t n o : SettledSignal) (w : Weights) :
    ((analyzeMarket t n o w).decision = .BUY ↔ (analyzeMarket t n o w).outcome ≠ none) ∧
    ((analyzeMarket t n o w).decision = .HOLD ↔ (analyzeMarket t n o w).outcome = none) ∧
    ((fallbackAnalysis w).decision = .BUY ↔ (fallbackAnalysis w).outcome ≠ none) ∧
    ((fallbackAnalysis w).decision = .HOLD ↔ (fallbackAnalysis w).outcome = none) := by
  have hd := decisionTriple_pairing (compositeScoreOf w t n o) (confidenceOf w t n o)
  have hl := liquidityAdjust_pairing o _ hd.1 hd.2
  exact ⟨hl.1, hl.2, by simp [fallbackAnalysis], by simp [fallbackAnalysis]⟩

/-! ### C8 — total-failure fallback -/

/-- C8: the catch-branch fallback of `analyzeMarket` is the neutral analysis:
composite score `0`, confidence `0`, decision HOLD, outcome `null`, a
breakdown whose three entries all have score `0`, and a top-level error
field.  (In the embedding `analyzeMarket` itself is a total function, which
is the shallow counterpart of "never throws": the try-block body is pure
arithmetic on the settled provider results.) -/
theorem c8_fallback_neutral (w : Weights) :
    (fallbackAnalysis w).compositeScore = 0 ∧
    (fallbackAnalysis w).confidence = 0 ∧
    (fallbackAnalysis w).decision = .HOLD ∧
    (fallbackAnalysis w).outcome = none ∧
    (fallbackAnalysis w).bdTechnical.score = 0 ∧
    (fallbackAnalysis w).bdNews.score = 0 ∧
    (fallbackAnalysis w).bdOrderFlow.score = 0 ∧
    (fallbackAnalysis w).hasError = true :=
  ⟨rfl, rfl, rfl, rfl, rfl, rfl, rfl, rfl⟩

/-- Witness for `c8_fallback_neutral` at the default weights. -/
theorem c8_witness :
    (fallbackAnalysis ⟨9/20, 3/10, 1/4⟩).compositeScore = 0 ∧
    (fallbackAnalysis ⟨9/20, 3/10, 1/4⟩).decision = .HOLD ∧
    (fallbackAnalysis ⟨9/20, 3/10, 1/4⟩).hasError = true :=
  ⟨(c8_fallback_neutral ⟨9/20, 3/10, 1/4⟩).1,
   (c8_fallback_neutral ⟨9/20, 3/10, 1/4⟩).2.2.1,
   (c8_fallback_neutral ⟨9/20, 3/10, 1/4⟩).2.2.2.2.2.2.2⟩

/-- Witness for `c10_decision_outcome_invariant` at a concrete input where
all providers failed. -/
theorem c10_witness :
    (analyzeMarket none none none ⟨9/20, 3/10, 1/4⟩).decision = .HOLD ↔
      (analyzeMarket none none none ⟨9/20, 3/10, 1/4⟩).outcome = none :=
  (c10_decision_outcome_invariant none none none ⟨9/20, 3/10, 1/4⟩).2.1

/-! ### C5 — scenario with all three providers succeeding -/

/-- C5 fails as stated: with scores `(0.6, 0.4, 0.5)` and weights
`(0.45, 0.30, 0.25)` the composite score is
`0.6*0.45 + 0.4*0.30 + 0.5*0.25 = 0.515`, not the claimed `0.53`. -/
theorem c5_counterexample :
    (analyzeMarket (some ⟨3/5, 0, false⟩) (some ⟨2/5, 0, false⟩)
        (some ⟨1/2, 4/5, false⟩) ⟨9/20, 3/10, 1/4⟩).compositeScore = 103/200 ∧
    ((103 : ℚ)/200 ≠ 53/100) := by
  constructor
  · norm_num [analyzeMarket, compositeScoreOf, adjustedWeightsOf,
      successfulWeightSum, isStrategySuccessful, scoreOf]
  · norm_num

/-- C5 amended: with all three providers succeeding with scores
`(0.6, 0.4, 0.5)`, weights `(0.45, 0.30, 0.25)` and order-flow confidence
`0.8`, `analyzeMarket` returns composite score `0.515`, confidence
`0.9*0.7 + 0.8*0.3 = 0.87`, and the decision BUY YES with hint `increased`. -/
theorem c5_amended :
    (analyzeMarket (some ⟨3/5, 0, false⟩) (some ⟨2/5, 0, false⟩)
        (some ⟨1/2, 4/5, false⟩) ⟨9/20, 3/10, 1/4⟩).compositeScore = 103/200 ∧
    (analyzeMarket (some ⟨3/5, 0, false⟩) (some ⟨2/5, 0, false⟩)
        (some ⟨1/2, 4/5, false⟩) ⟨9/20, 3/10, 1/4⟩).confidence = 87/100 ∧
    (analyzeMarket (some ⟨3/5, 0, false⟩) (some ⟨2/5, 0, false⟩)
        (some ⟨1/2, 4/5, false⟩) ⟨9/20, 3/10, 1/4⟩).decision = .BUY ∧
    (analyzeMarket (some ⟨3/5, 0, false⟩) (some ⟨2/5, 0, false⟩)
        (some ⟨1/2, 4/5, false⟩) ⟨9/20, 3/10, 1/4⟩).outcome = some .YES ∧
    (analyzeMarket (some ⟨3/5, 0, false⟩) (some ⟨2/5, 0, false⟩)
        (some ⟨1/2, 4/5, false⟩) ⟨9/20, 3/10, 1/4⟩).tradeAmount = .increased := by
  refine ⟨?_, ?_, ?_, ?_, ?_⟩ <;>
    norm_num [analyzeMarket, compositeScoreOf, adjustedWeightsOf,
      successfulWeightSum, isStrategySuccessful, scoreOf, confOf,
      confidenceOf, agreementConfidence, liquidityAdjust, decisionTriple]

/-! ### C1 — weight redistribution -/

/-- C1 fails as stated, at two of the inputs it quantifies over.
First input: all three providers fail and the weights are the defaults
`(0.45, 0.30, 0.25)`; the code keeps the original weights, so the failed
technical provider has effective weight `0.45 ≠ 0`, not `0`.
Second input: weights `(0, 0, 1)` (non-negative, summing to `1`), only the
technical provider succeeds; the sum of the successful providers' configured
weights is `0`, so the rescaling divides by zero (`NaN` in JS, `0` in `ℚ`)
and the effective weights do not sum to `1` even though a provider
succeeded. -/
theorem c1_counterexample :
    ((analyzeMarket none none none ⟨9/20, 3/10, 1/4⟩).weights.technical ≠ 0 ∧
     isStrategySuccessful (none : SettledSignal) = false) ∧
    (isStrategySuccessful (some ⟨1/2, 0, false⟩) = true ∧
     (analyzeMarket (some ⟨1/2, 0, false⟩) none none ⟨0, 0, 1⟩).weights.technical +
       (analyzeMarket (some ⟨1/2, 0, false⟩) none none ⟨0, 0, 1⟩).weights.news +
       (analyzeMarket (some ⟨1/2, 0, false⟩) none none ⟨0, 0, 1⟩).weights.orderFlow ≠ 1) := by
  refine ⟨⟨?_, rfl⟩, rfl, ?_⟩ <;>
    norm_num [analyzeMarket, adjustedWeightsOf, successfulWeightSum, isStrategySuccessful]

/-- C1 amended: for every non-negative weight triple summing to `1` —
(1) when at least one provider succeeds, every failed provider's effective
weight is `0`;
(2) when moreover the successful providers' configured weights have positive
sum `S`, each successful provider's effective weight is `w_i / S` and the
effective weights sum to `1`;
(3) when zero providers succeed, the configured weights are kept unchanged
and (each provider being rejected or reporting an error with score `0`, as
all three providers of this repository do) all three scores are `0` and the
composite score is `0`. -/
theorem c1_amended (w : Weights) (t n o : SettledSignal)
    (hT : 0 ≤ w.technical) (hN : 0 ≤ w.news) (hO : 0 ≤ w.orderFlow)
    (hsum : w.technical + w.news + w.orderFlow = 1) :
    ((isStrategySuccessful t = true ∨ isStrategySuccessful n = true ∨
        isStrategySuccessful o = true) →
      ((isStrategySuccessful t = false → (analyzeMarket t n o w).weights.technical = 0) ∧
       (isStrategySuccessful n = false → (analyzeMarket t n o w).weights.news = 0) ∧
       (isStrategySuccessful o = false → (analyzeMarket t n o w).weights.orderFlow = 0))) ∧
    (0 < successfulWeightSum w t n o →
      ((isStrategySuccessful t = true →
          (analyzeMarket t n o w).weights.technical = w.technical / successfulWeightSum w t n o) ∧
       (isStrategySuccessful n = true →
          (analyzeMarket t n o w).weights.news = w.news / successfulWeightSum w t n o) ∧
       (isStrategySuccessful o = true →
          (analyzeMarket t n o w).weights.orderFlow = w.orderFlow / successfulWeightSum w t n o) ∧
       (analyzeMarket t n o w).weights.technical + (analyzeMarket t n o w).weights.news +
         (analyzeMarket t n o w).weights.orderFlow = 1)) ∧
    ((isStrategySuccessful t = false ∧ isStrategySuccessful n = false ∧
        isStrategySuccessful o = false) →
      ProviderClean t → ProviderClean n → ProviderClean o →
      (analyzeMarket t n o w).weights = w ∧
      scoreOf t = 0 ∧ scoreOf n = 0 ∧ scoreOf o = 0 ∧
        (analyzeMarket t n o w).compositeScore = 0) := by
  have hw : (analyzeMarket t n o w).weights = adjustedWeightsOf w t n o := rfl
  have hcs : (analyzeMarket t n o w).compositeScore = compositeScoreOf w t n o := rfl
  refine ⟨?_, ?_, ?_⟩
  · intro hsucc
    rw [hw]
    unfold adjustedWeightsOf
    rw [if_pos (by tauto)]
    refine ⟨?_, ?_, ?_⟩ <;> · intro hfail; simp [hfail]
  · intro hS
    have hsucc : isStrategySuccessful t = true ∨ isStrategySuccessful n = true ∨
        isStrategySuccessful o = true := by
      by_contra hall
      push_neg at hall
      obtain ⟨h1, h2, h3⟩ := hall
      simp only [ne_eq, Bool.not_eq_true] at h1 h2 h3
      unfold successfulWeightSum at hS
      rw [h1, h2, h3] at hS
      simp at hS
    rw [hw]
    unfold adjustedWeightsOf
    rw [if_pos (by tauto)]
    have hSne : successfulWeightSum w t n o ≠ 0 := ne_of_gt hS
    refine ⟨?_, ?_, ?_, ?_⟩
    · intro h; simp [h]
    · intro h; simp [h]
    · intro h; simp [h]
    · simp only
      have split3 : ∀ (a : Bool) (x : ℚ),
          (if a = true then x / successfulWeightSum w t n o else 0) =
            (if a = true then x else 0) / successfulWeightSum w t n o := by
        intro a x
        cases a <;> simp
      rw [split3, split3, split3, div_add_div_same, div_add_div_same]
      exact div_self hSne
  · rintro ⟨h1, h2, h3⟩ hc1 hc2 hc3
    have hz : ∀ (r : SettledSignal), isStrategySuccessful r = false → ProviderClean r →
        scoreOf r = 0 := by
      intro r hr hcr
      match r with
      | none => rfl
      | some v =>
        cases hvb : v.hasError with
        | false => simp [isStrategySuccessful, hvb] at hr
        | true => exact hcr v rfl hvb
    have z1 := hz t h1 hc1
    have z2 := hz n h2 hc2
    have z3 := hz o h3 hc3
    have hwk : (analyzeMarket t n o w).weights = w := by
      rw [hw]
      unfold adjustedWeightsOf
      rw [if_neg (by simp [h1, h2, h3])]
    refine ⟨hwk, z1, z2, z3, ?_⟩
    rw [hcs]
    unfold compositeScoreOf
    rw [z1, z2, z3]
    ring

/-- Witness for `c1_amended`: technical and order-flow succeed with weights
`0.45` and `0.25`, news fails; the failed provider gets weight `0` and the
effective weights sum to `1`. -/
theorem c1_witness :
    (analyzeMarket (some ⟨3/5, 0, false⟩) none (some ⟨1/2, 1/2, false⟩)
        ⟨9/20, 3/10, 1/4⟩).weights.news = 0 ∧
    (analyzeMarket (some ⟨3/5, 0, false⟩) none (some ⟨1/2, 1/2, false⟩)
        ⟨9/20, 3/10, 1/4⟩).weights.technical +
      (analyzeMarket (some ⟨3/5, 0, false⟩) none (some ⟨1/2, 1/2, false⟩)
        ⟨9/20, 3/10, 1/4⟩).weights.news +
      (analyzeMarket (some ⟨3/5, 0, false⟩) none (some ⟨1/2, 1/2, false⟩)
        ⟨9/20, 3/10, 1/4⟩).weights.orderFlow = 1 := by
  have h := c1_amended ⟨9/20, 3/10, 1/4⟩ (some ⟨3/5, 0, false⟩) none
    (some ⟨1/2, 1/2, false⟩) (by norm_num) (by norm_num) (by norm_num) (by norm_num)
  refine ⟨(h.1 ?_).2.1 rfl, (h.2.1 ?_).2.2.2⟩
  · exact Or.inl rfl
  · norm_num [successfulWeightSum, isStrategySuccessful]

/-! ### Position Sizer — `calculateKellyAmount`, part_009 lines 606-667 -/

/-- Token price selection, part_009 line 612. -/
def tokenPriceOf (outcome : Outcome) (yesPrice noPrice : ℚ) : ℚ :=
  match outcome with
  | .YES => yesPrice
  | .NO => noPrice

/-- Aligned edge, part_009 lines 623-625: the composite score times the
direction multiplier (`+1` for YES, `-1` for NO). -/
def alignedEdgeOf (outcome : Outcome) (compositeScore : ℚ) : ℚ :=
  compositeScore * (match outcome with | .YES => 1 | .NO => -1)

/-- Estimated win probability, part_009 lines 632-635:
`clamp(price + alignedEdge, 0.05, 0.95)`. -/
def estimatedProbOf (price alignedEdge : ℚ) : ℚ :=
  min (19/20) (max (1/20) (price + alignedEdge))

/-- Kelly fraction, part_009 lines 637-646, with decimal odds `1/price`:
`(p*(odds-1) - (1-p)) / (odds-1)`. -/
def kellyFractionOf (price estProb : ℚ) : ℚ :=
  (estProb * (1/price - 1) - (1 - estProb)) / (1/price - 1)

/-- The Position Sizer, part_009 lines 608-667 (`calculateKellyAmount`).
`baseAmount` and `bankroll` are the parsed `config.tradeAmount` and
`config.bankroll`.  Returns `none` where the code returns `null`.
(The code computes `cappedHalfKelly` just before testing
`kellyFraction <= 0`; the order does not change the result.) -/
def calculateKellyAmount (baseAmount bankroll : ℚ) (outcome : Outcome)
    (compositeScore yesPrice noPrice : ℚ) : Option ℚ :=
  if tokenPriceOf outcome yesPrice noPrice ≤ 0 ∨ 1 ≤ tokenPriceOf outcome yesPrice noPrice then
    none
  else if alignedEdgeOf outcome compositeScore ≤ 0 then
    none
  else if |1 / tokenPriceOf outcome yesPrice noPrice - 1| < 1/100 then
    none
  else if kellyFractionOf (tokenPriceOf outcome yesPrice noPrice)
      (estimatedProbOf (tokenPriceOf outcome yesPrice noPrice)
        (alignedEdgeOf outcome compositeScore)) ≤ 0 then
    none
  else
    some (min (baseAmount * 2)
      (max 1 (min (1/4)
        (max 0 (kellyFractionOf (tokenPriceOf outcome yesPrice noPrice)
          (estimatedProbOf (tokenPriceOf outcome yesPrice noPrice)
            (alignedEdgeOf outcome compositeScore)) / 2)) * bankroll)))

/-- Concrete sizing run shared by several checks: price `0.60`, composite
score `0.5` on YES, bankroll `100`, base amount `10` sizes to `20`. -/
lemma kelly_concrete_eval :
    calculateKellyAmount 10 100 .YES (1/2) (3/5) (2/5) = some 20 := by
  have habs : |1 / ((3:ℚ)/5) - 1| = 2/3 := by
    rw [abs_of_pos] <;> norm_num
  have habs2 : |(2:ℚ)/3| = 2/3 := abs_of_pos (by norm_num)
  norm_num [calculateKellyAmount, tokenPriceOf, alignedEdgeOf, estimatedProbOf,
    kellyFractionOf, habs, habs2]

/-! ### C4 — half-Kelly with 25% cap and `[1, 2*baseAmount]` clamp -/

/-- C4: whenever all four sizing guards pass, the Position Sizer returns
`min(2*baseAmount, max(1, min(0.25, max(0, kellyFraction/2)) * bankroll))` —
half-Kelly with a hard 25%-of-bankroll ceiling, multiplied by the bankroll
and clamped to `[1, 2*baseAmount]`; and concretely, for price `0.60`,
composite score `0.5` on YES, bankroll `100` and base amount `10`, the final
sized amount is `20`. -/
theorem c4_half_kelly_capped :
    (∀ (baseAmount bankroll : ℚ) (outcome : Outcome) (cs yp np : ℚ),
      0 < tokenPriceOf outcome yp np →
      tokenPriceOf outcome yp np < 1 →
      0 < alignedEdgeOf outcome cs →
      1/100 ≤ |1 / tokenPriceOf outcome yp np - 1| →
      0 < kellyFractionOf (tokenPriceOf outcome yp np)
        (estimatedProbOf (tokenPriceOf outcome yp np) (alignedEdgeOf outcome cs)) →
      calculateKellyAmount baseAmount bankroll outcome cs yp np =
        some (min (baseAmount * 2)
          (max 1 (min (1/4)
            (max 0 (kellyFractionOf (tokenPriceOf outcome yp np)
              (estimatedProbOf (tokenPriceOf outcome yp np)
                (alignedEdgeOf outcome cs)) / 2)) * bankroll)))) ∧
    calculateKellyAmount 10 100 .YES (1/2) (3/5) (2/5) = some 20 := by
  refine ⟨?_, kelly_concrete_eval⟩
  intro baseAmount bankroll outcome cs yp np h1 h2 h3 h4 h5
  unfold calculateKellyAmount
  rw [if_neg (by push_neg; exact ⟨h1, h2⟩), if_neg (not_le.mpr h3),
    if_neg (not_lt.mpr h4), if_neg (not_le.mpr h5)]

/-- Witness for `c4_half_kelly_capped`: its general part applied at the
concrete scenario of the claim. -/
theorem c4_witness :
    calculateKellyAmount 10 100 .YES (1/2) (3/5) (2/5) =
      some (min (10 * 2)
        (max 1 (min (1/4)
          (max 0 (kellyFractionOf (tokenPriceOf .YES (3/5) (2/5))
            (estimatedProbOf (tokenPriceOf .YES (3/5) (2/5))
              (alignedEdgeOf .YES (1/2))) / 2)) * 100))) := by
  have habs : |1 / ((3:ℚ)/5) - 1| = 2/3 := by
    rw [abs_of_pos] <;> norm_num
  have habs2 : |(2:ℚ)/3| = 2/3 := abs_of_pos (by norm_num)
  exact c4_half_kelly_capped.1 10 100 .YES (1/2) (3/5) (2/5)
    (by norm_num [tokenPriceOf])
    (by norm_num [tokenPriceOf])
    (by norm_num [alignedEdgeOf])
    (by norm_num [tokenPriceOf, habs, habs2])
    (by norm_num [tokenPriceOf, alignedEdgeOf, estimatedProbOf, kellyFractionOf])

/-! ### C3 — sizer range and negative-edge rejection -/

/-- C3 fails as stated: with `baseAmount = 0.3` (so `2*baseAmount = 0.6 < 1`)
and otherwise ordinary inputs, the sizer returns `0.6`, which is not in the
interval `[1, 2*baseAmount] = [1, 0.6]` (that interval is empty). -/
theorem c3_counterexample :
    calculateKellyAmount (3/10) 100 .YES (1/2) (3/5) (2/5) = some (3/5) ∧
    ¬((1:ℚ) ≤ 3/5) := by
  have habs : |1 / ((3:ℚ)/5) - 1| = 2/3 := by
    rw [abs_of_pos] <;> norm_num
  have habs2 : |(2:ℚ)/3| = 2/3 := abs_of_pos (by norm_num)
  constructor
  · norm_num [calculateKellyAmount, tokenPriceOf, alignedEdgeOf, estimatedProbOf,
      kellyFractionOf, habs, habs2]
  · norm_num

/-- C3 amended: the sizer returns `null` whenever the aligned edge is `≤ 0`,
and — provided `2*baseAmount ≥ 1`, so that the clamp interval is non-empty
(the default `baseAmount` is `10`) — every non-null result lies in
`[1, 2*baseAmount]`. -/
theorem c3_amended (baseAmount bankroll : ℚ) (outcome : Outcome) (cs yp np : ℚ) :
    (alignedEdgeOf outcome cs ≤ 0 →
      calculateKellyAmount baseAmount bankroll outcome cs yp np = none) ∧
    (1 ≤ baseAmount * 2 →
      ∀ a : ℚ, calculateKellyAmount baseAmount bankroll outcome cs yp np = some a →
        1 ≤ a ∧ a ≤ baseAmount * 2) := by
  constructor
  · intro hedge
    unfold calculateKellyAmount
    split_ifs <;> rfl
  · intro hbase a ha
    unfold calculateKellyAmount at ha
    split_ifs at ha
    rw [Option.some.injEq] at ha
    rw [← ha]
    constructor
    · exact le_min hbase (le_max_left _ _)
    · exact min_le_left _ _

/-- Witness for `c3_amended`: a misaligned NO trade is rejected, and the
concrete YES sizing result `20` lies in `[1, 2*10]`. -/
theorem c3_witness :
    calculateKellyAmount 10 100 .NO (1/2) (3/5) (2/5) = none ∧
    (1 ≤ (20:ℚ) ∧ (20:ℚ) ≤ 10 * 2) :=
  ⟨(c3_amended 10 100 .NO (1/2) (3/5) (2/5)).1 (by norm_num [alignedEdgeOf]),
   (c3_amended 10 100 .YES (1/2) (3/5) (2/5)).2 (by norm_num) 20 kelly_concrete_eval⟩

/-! ### Candidate Allocator — part_009 lines 546-598 -/

/-- A trade candidate collected in phase 1 of `checkTradingOpportunities`
(part_009 lines 547-555): its market/outcome key, the Kelly-sized amount and
the priority `|compositeScore| * confidence`. -/
structure Candidate where
  marketId : String
  outcome : Outcome
  kellyAmount : ℚ
  priority : ℚ
deriving DecidableEq, Repr

/-- Candidate ordering used in phase 2 (part_009 line 560):
`a` before `b` when `b.priority ≤ a.priority` (descending priority). -/
def priorityGE (a b : Candidate) : Prop :=
  b.priority ≤ a.priority

instance : DecidableRel priorityGE :=
  fun a b => inferInstanceAs (Decidable (b.priority ≤ a.priority))

instance : IsTotal Candidate priorityGE :=
  ⟨fun a b => le_total b.priority a.priority⟩

instance : IsTrans Candidate priorityGE :=
  ⟨fun _ _ _ hab hbc => le_trans hbc hab⟩

/-- Phase 2 (part_009 lines 559-560): sort candidates by descending
priority (a stable sort, like V8's `Array.prototype.sort`). -/
def sortCandidates (l : List Candidate) : List Candidate :=
  List.insertionSort priorityGE l

/-- Phase 3 (part_009 lines 562-598): walk the sorted candidates keeping a
remaining budget; skip every candidate once the budget is `≤ 0`, otherwise
fund `min(kellyAmount, remainingBudget)` and decrement the budget.  Returns
the funded candidates, each with its allocated amount, in funding order. -/
def allocateBudget (budget : ℚ) : List Candidate → List (Candidate × ℚ)
  | [] => []
  | c :: rest =>
    if budget ≤ 0 then allocateBudget budget rest
    else (c, min c.kellyAmount budget) ::
      allocateBudget (budget - min c.kellyAmount budget) rest

/-- Total amount allocated to a funded list. -/
def sumAllocated (l : List (Candidate × ℚ)) : ℚ :=
  (l.map (fun p => p.2)).sum

/-- Constructor default, part_009 lines 300-306: when `config.maxExposure`
is not provided it defaults to `bankroll * 0.5`. -/
def defaultMaxExposure (bankroll : ℚ) : ℚ :=
  bankroll * (1/2)

/-- With a non-positive budget no candidate at all is funded. -/
lemma allocateBudget_nil_of_nonpos (b : ℚ) (l : List Candidate) (hb : b ≤ 0) :
    allocateBudget b l = [] := by
  induction l with
  | nil => rfl
  | cons c rest ih => simp [allocateBudget, hb, ih]

/-- The total allocated amount never exceeds the budget. -/
lemma allocateBudget_sum_le (l : List Candidate) :
    ∀ b : ℚ, 0 ≤ b → sumAllocated (allocateBudget b l) ≤ b := by
  induction l with
  | nil => intro b hb; simpa [allocateBudget, sumAllocated] using hb
  | cons c rest ih =>
    intro b hb
    by_cases hble : b ≤ 0
    · rw [allocateBudget, if_pos hble]
      exact ih b hb
    · rw [allocateBudget, if_neg hble]
      have hmin : min c.kellyAmount b ≤ b := min_le_right _ _
      have := ih (b - min c.kellyAmount b) (by linarith)
      simp only [sumAllocated, List.map_cons, List.sum_cons] at this ⊢
      linarith

/-- The funded candidates are a sublist (in order) of the input list. -/
lemma allocateBudget_sublist (l : List Candidate) :
    ∀ b : ℚ, List.Sublist ((allocateBudget b l).map Prod.fst) l := by
  induction l with
  | nil => intro b; simp [allocateBudget]
  | cons c rest ih =>
    intro b
    by_cases hble : b ≤ 0
    · rw [allocateBudget, if_pos hble]
      exact (ih b).cons c
    · rw [allocateBudget, if_neg hble]
      simpa using (ih (b - min c.kellyAmount b)).cons₂ c

/-- The funded list `out`, produced with starting budget `b`, gives each
entry exactly `min(kellyAmount, remaining budget at its turn)`. -/
def FundedCorrectly (b : ℚ) (out : List (Candidate × ℚ)) : Prop :=
  ∀ (i : ℕ) (h : i < out.length),
    (out.get ⟨i, h⟩).2 =
      min ((out.get ⟨i, h⟩).1.kellyAmount) (b - sumAllocated (out.take i))

/-- Every funded candidate receives exactly
`min(kellyAmount, remaining budget at its turn)`. -/
lemma allocateBudget_funded (l : List Candidate) :
    ∀ b : ℚ, FundedCorrectly b (allocateBudget b l) := by
  induction l with
  | nil => intro b i h; simp [allocateBudget] at h
  | cons c rest ih =>
    intro b
    by_cases hble : b ≤ 0
    · rw [show allocateBudget b (c :: rest) = allocateBudget b rest from by
        rw [allocateBudget, if_pos hble]]
      exact ih b
    · rw [show allocateBudget b (c :: rest) =
          (c, min c.kellyAmount b) :: allocateBudget (b - min c.kellyAmount b) rest from by
        rw [allocateBudget, if_neg hble]]
      intro i h
      match i with
      | 0 => simp [sumAllocated]
      | Nat.succ i =>
        have h2 : i < (allocateBudget (b - min c.kellyAmount b) rest).length := by
          simpa using h
        have hrec := ih (b - min c.kellyAmount b) i h2
        simp only [List.get_cons_succ, List.take_succ_cons, sumAllocated,
          List.map_cons, List.sum_cons]
        simp only [sumAllocated] at hrec
        rw [hrec, sub_sub]

/-! ### C2 — budget allocation invariants -/

/-- C2: within one opportunity cycle the candidates are sorted in descending
priority order (a permutation of the collected list), funded in that order (the
funded candidates are an in-order sublist of the sorted list), each funded
candidate receives `min(kellyAmount, remainingBudget)`, no candidate is funded
once the remaining budget is `≤ 0`, and the total allocated amount never
exceeds the exposure budget (by default `bankroll * 0.5`,
see `defaultMaxExposure`). -/
theorem c2_budget_allocation (budget : ℚ) (l : List Candidate) (hb : 0 ≤ budget) :
    sumAllocated (allocateBudget budget (sortCandidates l)) ≤ budget ∧
    List.Sorted priorityGE (sortCandidates l) ∧
    List.Perm (sortCandidates l) l ∧
    List.Sublist ((allocateBudget budget (sortCandidates l)).map Prod.fst)
      (sortCandidates l) ∧
    (∀ (b : ℚ) (rest : List Candidate), b ≤ 0 → allocateBudget b rest = []) ∧
    (∀ (i : ℕ) (h : i < (allocateBudget budget (sortCandidates l)).length),
      ((allocateBudget budget (sortCandidates l)).get ⟨i, h⟩).2 =
        min (((allocateBudget budget (sortCandidates l)).get ⟨i, h⟩).1.kellyAmount)
          (budget - sumAllocated ((allocateBudget budget (sortCandidates l)).take i))) :=
  ⟨allocateBudget_sum_le _ budget hb,
   List.sorted_insertionSort priorityGE l,
   List.perm_insertionSort priorityGE l,
   allocateBudget_sublist _ budget,
   fun b rest hble => allocateBudget_nil_of_nonpos b rest hble,
   allocateBudget_funded _ budget⟩

/-- Witness for `c2_budget_allocation`, the spec's Scenario 4: two candidates
with Kelly amounts `30` and `25` under a budget of `40 = defaultMaxExposure 80`;
the sum of the allocated amounts stays within the budget (the higher-priority
candidate gets `30`, the second is shrunk to the remaining `10`). -/
theorem c2_witness :
    sumAllocated (allocateBudget (defaultMaxExposure 80)
      (sortCandidates [⟨"mkt1", .YES, 30, 2⟩, ⟨"mkt2", .NO, 25, 1⟩])) ≤
        defaultMaxExposure 80 ∧
    allocateBudget (defaultMaxExposure 80)
      (sortCandidates [⟨"mkt1", .YES, 30, 2⟩, ⟨"mkt2", .NO, 25, 1⟩]) =
      [(⟨"mkt1", .YES, 30, 2⟩, 30), (⟨"mkt2", .NO, 25, 1⟩, 10)] := by
  constructor
  · exact (c2_budget_allocation (defaultMaxExposure 80)
      [⟨"mkt1", .YES, 30, 2⟩, ⟨"mkt2", .NO, 25, 1⟩]
      (by norm_num [defaultMaxExposure])).1
  · norm_num [defaultMaxExposure, sortCandidates, List.insertionSort,
      List.orderedInsert, priorityGE, allocateBudget]

/-! ### Settlement Checker — `settlePaperTrades`, part_009 lines 917-1010 -/

/-- The fields of a persisted paper trade that settlement reads. -/
structure SettleTrade where
  outcome : Outcome
  shares : ℚ
  amount : ℚ
deriving DecidableEq, Repr

/-- Settlement metadata parsed from the trade's `notes` field
(part_009 lines 932-944): both fields are optional in the parsed JSON. -/
structure SettlementInfo where
  end_date : Option ℤ
  slug : Option String
deriving DecidableEq, Repr

/-- One settlement attempt for one unsettled paper trade, part_009
lines 930-979.  `notes` is `none` when `JSON.parse` failed, `now` is
`Date.now()`, and `resolution` is the winner reported by
`getMarketWinner` (`none` = not yet resolved).  Returns the realized PnL
update, or `none` when the trade is skipped this cycle.  The
`ed = 0 ∨ sl = ""` test models the JS falsy check `!endDate || !slug`. -/
def settleStep (tr : SettleTrade) (notes : Option SettlementInfo) (now : ℤ)
    (resolution : Option Outcome) : Option ℚ :=
  match notes with
  | none => none
  | some info =>
    match info.end_date, info.slug with
    | some ed, some sl =>
      if ed = 0 ∨ sl = "" then none
      else if now ≤ ed then none
      else
        match resolution with
        | none => none
        | some winner =>
          some (if tr.outcome = winner then tr.shares - tr.amount else -tr.amount)
    | _, _ => none

/-! ### C6 — settlement PnL -/

/-- C6: for every paper trade whose market has resolved (settlement metadata
present, deadline passed, winner known), the Settlement Checker computes the
realized PnL as `shares - amount` when the trade's outcome equals the
resolved winner and `-amount` otherwise; concretely a winning trade with
`shares = 50`, `amount = 20` settles to PnL `30` and a losing trade with
`amount = 20` settles to PnL `-20`. -/
theorem c6_settlement_pnl :
    (∀ (tr : SettleTrade) (ed : ℤ) (sl : String) (now : ℤ) (winner : Outcome),
      ed ≠ 0 → sl ≠ "" → ed < now →
      settleStep tr (some ⟨some ed, some sl⟩) now (some winner) =
        some (if tr.outcome = winner then tr.shares - tr.amount else -tr.amount)) ∧
    settleStep ⟨.YES, 50, 20⟩ (some ⟨some 1000, some "mkt"⟩) 2000 (some .YES) =
      some 30 ∧
    settleStep ⟨.YES, 50, 20⟩ (some ⟨some 1000, some "mkt"⟩) 2000 (some .NO) =
      some (-20) := by
  refine ⟨?_, ?_, ?_⟩
  · intro tr ed sl now winner hed hsl hnow
    simp [settleStep, hed, hsl, hnow.not_le]
  · have hs : ("mkt" : String) ≠ "" := by decide
    norm_num [settleStep, hs]
  · have hs : ("mkt" : String) ≠ "" := by decide
    have ho : Outcome.YES ≠ Outcome.NO := by decide
    norm_num [settleStep, hs, ho]

/-- Witness for `c6_settlement_pnl`: its general part applied to a concrete
resolved losing NO trade. -/
theorem c6_witness :
    settleStep ⟨.NO, 7, 3⟩ (some ⟨some 5, some "x"⟩) 6 (some .YES) =
      some (if Outcome.NO = Outcome.YES then (7:ℚ) - 3 else -3) :=
  c6_settlement_pnl.1 ⟨.NO, 7, 3⟩ 5 "x" 6 .YES (by decide) (by decide) (by decide)

/-! ### Trading Engine lifecycle — `start`/`stop`, part_009 lines 309-370 -/

/-- The scheduler-relevant state of a `TradingEngine`: the in-memory
`isRunning` flag, whether each of the three cron jobs is scheduled, the
persisted `is_running` status flag, and how many immediate scans have been
performed. -/
structure EngineState where
  isRunning : Bool
  scanJob : Bool
  checkJob : Bool
  settleJob : Bool
  dbRunning : Bool
  scanCount : ℕ
deriving DecidableEq, Repr

/-- `start()`, part_009 lines 309-342: a no-op when already running,
otherwise set the flags, schedule the three periodic jobs (market scan,
opportunity check, paper settlement) and perform one immediate scan. -/
def engineStart (s : EngineState) : EngineState :=
  if s.isRunning then s
  else
    { isRunning := true
      scanJob := true
      checkJob := true
      settleJob := true
      dbRunning := true
      scanCount := s.scanCount + 1 }

/-- `stop()`, part_009 lines 344-370: a no-op when already stopped,
otherwise clear the flags and cancel the three jobs. -/
def engineStop (s : EngineState) : EngineState :=
  if s.isRunning then
    { s with
      isRunning := false
      scanJob := false
      checkJob := false
      settleJob := false
      dbRunning := false }
  else s

/-! ### C9 — start/stop idempotence -/

/-- C9: `start` is idempotent (a no-op when already running, and
`start;start = start`); when stopped, `start` sets the persisted running
flag, schedules the three periodic tasks and performs one immediate scan.
`stop` is idempotent (a no-op when already stopped, and `stop;stop = stop`);
when running, `stop` cancels the three tasks and persists the running flag
false. -/
theorem c9_start_stop_idempotent (s : EngineState) :
    engineStart (engineStart s) = engineStart s ∧
    engineStop (engineStop s) = engineStop s ∧
    (s.isRunning = true → engineStart s = s) ∧
    (s.isRunning = false →
      (engineStart s).isRunning = true ∧ (engineStart s).dbRunning = true ∧
      (engineStart s).scanJob = true ∧ (engineStart s).checkJob = true ∧
      (engineStart s).settleJob = true ∧
      (engineStart s).scanCount = s.scanCount + 1) ∧
    (s.isRunning = false → engineStop s = s) ∧
    (s.isRunning = true →
      (engineStop s).isRunning = false ∧ (engineStop s).dbRunning = false ∧
      (engineStop s).scanJob = false ∧ (engineStop s).checkJob = false ∧
      (engineStop s).settleJob = false) := by
  cases hrun : s.isRunning <;>
    simp [engineStart, engineStop, hrun]

/-- Witness for `c9_start_stop_idempotent` at the freshly-constructed
(stopped) engine state. -/
theorem c9_witness :
    engineStart (engineStart ⟨false, false, false, false, false, 0⟩) =
      engineStart ⟨false, false, false, false, false, 0⟩ ∧
    (engineStart ⟨false, false, false, false, false, 0⟩).isRunning = true ∧
    (engineStart ⟨false, false, false, false, false, 0⟩).scanCount = 0 + 1 ∧
    engineStop ⟨false, false, false, false, false, 0⟩ =
      ⟨false, false, false, false, false, 0⟩ :=
  ⟨(c9_start_stop_idempotent ⟨false, false, false, false, false, 0⟩).1,
   ((c9_start_stop_idempotent ⟨false, false, false, false, false, 0⟩).2.2.2.1 rfl).1,
   ((c9_start_stop_idempotent ⟨false, false, false, false, false, 0⟩).2.2.2.1 rfl).2.2.2.2.2,
   (c9_start_stop_idempotent ⟨false, false, false, false, false, 0⟩).2.2.2.2.1 rfl⟩

/-! ### De-duplication — `processedTrades`, part_009 lines 292, 474-480, 591-593 -/

/-- The key of the `processedTrades` set: the JS string
`` `${market.market_id}_${analysis.outcome}` `` is injectively determined by
the (marketId, outcome) pair, which is what the model stores. -/
abbrev TradeKey := String × Outcome

/-- The de-duplication key of a candidate. -/
def ckey (c : Candidate) : TradeKey :=
  (c.marketId, c.outcome)

/-- Phase 1 of `checkTradingOpportunities` at the key level (part_009
lines 473-557): each list entry is a market whose analysis came back BUY,
paired with whether it passes the later guards (odds range, risk/reward,
Kelly sizing).  A candidate whose key is already in `processedTrades` is
skipped (lines 477-480 — this check happens before the other guards and the
set is not modified during collection); the survivors are collected in
market order. -/
def collectCandidates (s : List TradeKey) : List (Candidate × Bool) → List Candidate
  | [] => []
  | (c, pass) :: rest =>
    if ckey c ∈ s then collectCandidates s rest
    else if pass then c :: collectCandidates s rest
    else collectCandidates s rest

/-- One full opportunity cycle at the key level: collect (phase 1), sort by
priority (phase 2), allocate the budget (phase 3).  Every funded candidate's
key is added to `processedTrades` at execution (line 592); candidates skipped
for budget are not added.  Returns the executed keys (in execution order) and
the updated `processedTrades` set. -/
def oppCycle (s : List TradeKey) (budget : ℚ) (markets : List (Candidate × Bool)) :
    List TradeKey × List TradeKey :=
  ((allocateBudget budget (sortCandidates (collectCandidates s markets))).map
      (fun p => ckey p.1),
   s ++ (allocateBudget budget (sortCandidates (collectCandidates s markets))).map
      (fun p => ckey p.1))

/-- A sequence of opportunity cycles within one engine lifetime, each with
its own budget and market list, threading the `processedTrades` set (which is
never cleared between cycles); returns all executed keys in order. -/
def runCycles (s : List TradeKey) : List (ℚ × List (Candidate × Bool)) → List TradeKey
  | [] => []
  | (b, ms) :: rest => (oppCycle s b ms).1 ++ runCycles (oppCycle s b ms).2 rest

/-- Collected candidates are drawn from the market list, in order. -/
lemma collectCandidates_sublist (s : List TradeKey) (ms : List (Candidate × Bool)) :
    List.Sublist (collectCandidates s ms) (ms.map Prod.fst) := by
  induction ms with
  | nil => simp [collectCandidates]
  | cons p rest ih =>
    obtain ⟨c, pass⟩ := p
    simp only [collectCandidates, List.map_cons]
    split_ifs <;> first | exact ih.cons c | exact ih.cons₂ c

/-- No collected candidate's key is already in `processedTrades`. -/
lemma collectCandidates_not_mem (s : List TradeKey) (ms : List (Candidate × Bool)) :
    ∀ c ∈ collectCandidates s ms, ckey c ∉ s := by
  induction ms with
  | nil => simp [collectCandidates]
  | cons p rest ih =>
    obtain ⟨c, pass⟩ := p
    intro d hd
    simp only [collectCandidates] at hd
    split_ifs at hd with h1 h2
    · exact ih d hd
    · rcases List.mem_cons.mp hd with rfl | hd
      · exact h1
      · exact ih d hd
    · exact ih d hd

/-- Every executed key of a cycle comes from a collected candidate. -/
lemma oppCycle_exec_subset (s : List TradeKey) (b : ℚ) (ms : List (Candidate × Bool)) :
    ∀ k ∈ (oppCycle s b ms).1, ∃ c ∈ collectCandidates s ms, k = ckey c := by
  intro k hk
  simp only [oppCycle, List.mem_map] at hk
  obtain ⟨p, hp, rfl⟩ := hk
  have h1 : p.1 ∈ (allocateBudget b (sortCandidates (collectCandidates s ms))).map Prod.fst :=
    List.mem_map_of_mem Prod.fst hp
  have h2 : p.1 ∈ sortCandidates (collectCandidates s ms) :=
    (allocateBudget_sublist _ b).subset h1
  have h3 : p.1 ∈ collectCandidates s ms :=
    (List.perm_insertionSort priorityGE _).subset h2
  exact ⟨p.1, h3, rfl⟩

/-- No executed key of a cycle was in `processedTrades` when it started. -/
lemma oppCycle_exec_not_mem (s : List TradeKey) (b : ℚ) (ms : List (Candidate × Bool)) :
    ∀ k ∈ (oppCycle s b ms).1, k ∉ s := by
  intro k hk
  obtain ⟨c, hc, rfl⟩ := oppCycle_exec_subset s b ms k hk
  exact collectCandidates_not_mem s ms c hc

/-- When the per-cycle market keys are distinct, the executed keys of the
cycle are distinct. -/
lemma oppCycle_exec_nodup (s : List TradeKey) (b : ℚ) (ms : List (Candidate × Bool))
    (h : (ms.map (fun q => ckey q.1)).Nodup) : (oppCycle s b ms).1.Nodup := by
  have hcoll : ((collectCandidates s ms).map ckey).Nodup := by
    have hsub : List.Sublist ((collectCandidates s ms).map ckey)
        ((ms.map Prod.fst).map ckey) :=
      (collectCandidates_sublist s ms).map ckey
    have : (ms.map Prod.fst).map ckey = ms.map (fun q => ckey q.1) := by
      rw [List.map_map]; rfl
    rw [this] at hsub
    exact h.sublist hsub
  have hsorted : ((sortCandidates (collectCandidates s ms)).map ckey).Nodup :=
    (((List.perm_insertionSort priorityGE (collectCandidates s ms)).map ckey).nodup_iff).mpr hcoll
  have hfund : List.Sublist
      (((allocateBudget b (sortCandidates (collectCandidates s ms))).map Prod.fst).map ckey)
      ((sortCandidates (collectCandidates s ms)).map ckey) :=
    (allocateBudget_sublist _ b).map ckey
  have : (oppCycle s b ms).1 =
      ((allocateBudget b (sortCandidates (collectCandidates s ms))).map Prod.fst).map ckey := by
    simp [oppCycle, List.map_map]
  rw [this]
  exact hsorted.sublist hfund

/-- Across a whole engine lifetime the executed keys are distinct and none of
them was in the starting `processedTrades` set. -/
lemma runCycles_nodup (cycles : List (ℚ × List (Candidate × Bool))) :
    ∀ s : List TradeKey,
      (∀ p ∈ cycles, ((p.2.map (fun q => ckey q.1)).Nodup : Prop)) →
      (runCycles s cycles).Nodup ∧ ∀ k ∈ runCycles s cycles, k ∉ s := by
  induction cycles with
  | nil => intro s _; simp [runCycles]
  | cons p rest ih =>
    intro s h
    obtain ⟨b, ms⟩ := p
    have hms : (ms.map (fun q => ckey q.1)).Nodup := h (b, ms) (List.mem_cons_self _ _)
    have hex : (oppCycle s b ms).1.Nodup := oppCycle_exec_nodup s b ms hms
    have hrest := ih (oppCycle s b ms).2 (fun q hq => h q (List.mem_cons_of_mem _ hq))
    have hstate : (oppCycle s b ms).2 = s ++ (oppCycle s b ms).1 := rfl
    constructor
    · show ((oppCycle s b ms).1 ++ runCycles (oppCycle s b ms).2 rest).Nodup
      rw [List.nodup_append]
      refine ⟨hex, hrest.1, ?_⟩
      intro k hk hk2
      have := hrest.2 k hk2
      rw [hstate] at this
      exact this (List.mem_append_right s hk)
    · show ∀ k ∈ (oppCycle s b ms).1 ++ runCycles (oppCycle s b ms).2 rest, k ∉ s
      intro k hk
      rcases List.mem_append.mp hk with hk | hk
      · exact oppCycle_exec_not_mem s b ms k hk
      · intro hks
        have := hrest.2 k hk
        rw [hstate] at this
        exact this (List.mem_append_left _ hks)

/-! ### C7 — no (market, outcome) pair traded twice in one lifetime -/

/-- C7: starting from the empty `processedTrades` set (process start), over
any sequence of opportunity cycles whose per-cycle market keys are distinct,
no (marketId, outcome) key is ever executed twice — and the set only ever
grows (it survives every cycle; nothing but a restart resets it). -/
theorem c7_no_duplicate_trades (cycles : List (ℚ × List (Candidate × Bool)))
    (h : ∀ p ∈ cycles, ((p.2.map (fun q => ckey q.1)).Nodup : Prop)) :
    (runCycles [] cycles).Nodup ∧
    ∀ (s : List TradeKey) (b : ℚ) (ms : List (Candidate × Bool)),
      ∀ k ∈ s, k ∈ (oppCycle s b ms).2 :=
  ⟨(runCycles_nodup cycles [] h).1,
   fun s _ _ k hk => List.mem_append_left _ hk⟩

/-- Witness for `c7_no_duplicate_trades`: the same market/outcome candidate
offered in two consecutive cycles is executed only once. -/
theorem c7_witness :
    (runCycles []
      [(40, [(⟨"a", .YES, 30, 2⟩, true)]), (40, [(⟨"a", .YES, 30, 2⟩, true)])]).Nodup :=
  (c7_no_duplicate_trades
    [(40, [(⟨"a", .YES, 30, 2⟩, true)]), (40, [(⟨"a", .YES, 30, 2⟩, true)])]
    (by
      intro p hp
      simp only [List.mem_cons, List.not_mem_nil, or_false] at hp
      rcases hp with rfl | rfl <;> simp)).1

end Polymarket
